import Mathlib

/-!
Verification of the chunking / RAG pipeline of this repository
(src/chunking.py, src/setupLangchain.py, src/setupRAG.py, src/query.py)
against its natural-language specification.

Texts are modelled as `List Char`.  Python `int` is modelled as `Int`
where sign matters (configuration fields) and as `Nat` for lengths.
The title-chunking algorithm itself lives in the external
`unstructured` library (`chunk_by_title`), not in this repository; it
is modelled from the specification (sections 4.1, 4.2 and 7), as noted
on each definition.
-/

/-! ## Data model -/

/-- Element kinds handled by `json_to_elements` (src/chunking.py, the
`element_type_map`). -/
inductive ElementKind
  | Title
  | NarrativeText
  | ListItem
  | Table
  | Text
  | CompositeElement
deriving DecidableEq, Repr

/-- A typed text element, the unit consumed by the chunker. -/
structure Element where
  kind : ElementKind
  text : List Char
deriving DecidableEq, Repr

/-- Configuration for chunking parameters (src/chunking.py,
`ChunkingConfig`).  Fields are `Int` because Python integers may be
negative; the constructor performs no validation. -/
structure ChunkingConfig where
  max_characters : Int
  new_after_n_chars : Int
  combine_text_under_n_chars : Int
  overlap : Int
  overlap_all : Bool
  multipage_sections : Bool
deriving DecidableEq, Repr

/-- Embedding of `ChunkingConfig.__init__` (src/chunking.py lines
23-37): it stores every argument verbatim and has no failure path. -/
def ChunkingConfig.init (max_characters new_after_n_chars
    combine_text_under_n_chars overlap : Int)
    (overlap_all multipage_sections : Bool) : ChunkingConfig :=
  { max_characters := max_characters
    new_after_n_chars := new_after_n_chars
    combine_text_under_n_chars := combine_text_under_n_chars
    overlap := overlap
    overlap_all := overlap_all
    multipage_sections := multipage_sections }

/-- Modelled from the spec: section 7 declares `overlap >=
max_characters` and negative or zero size thresholds to be
configuration errors, rejected by the chunking library (the repository
itself never validates).  `validConfig` is the condition under which
the library call succeeds. -/
def validConfig (cfg : ChunkingConfig) : Bool :=
  0 < cfg.max_characters && 0 < cfg.new_after_n_chars &&
    0 < cfg.combine_text_under_n_chars && 0 ≤ cfg.overlap &&
    cfg.overlap < cfg.max_characters

/-! ## Title segmentation (modelled from the spec, section 4.1) -/

/-- Modelled from the spec: the TitleSegmenter of section 4.1, which is
implemented inside the external `unstructured` library.  A `Title`
closes the open buffer and starts a new buffer holding the title; a
`Table` closes the buffer, becomes a section of its own and opens a
fresh buffer; at end of stream the remaining buffer is flushed.  Page
metadata is not modelled (`multipage_sections` keeps sections across
pages, and page numbers never influence chunk texts). -/
def segmentAux (buf : List Element) : List Element → List (List Element)
  | [] => if buf.isEmpty then [] else [buf]
  | e :: rest =>
    match e.kind with
    | .Title => (if buf.isEmpty then [] else [buf]) ++ segmentAux [e] rest
    | .Table => (if buf.isEmpty then [] else [buf]) ++ [[e]] ++ segmentAux [] rest
    | _ => segmentAux (buf ++ [e]) rest

/-- Modelled from the spec: splits an element stream into sections at
title and table boundaries (section 4.1). -/
def segmentByTitle (es : List Element) : List (List Element) :=
  segmentAux [] es

/-! ## Pass 1: merging small sections (modelled from the spec, 4.2) -/

/-- Total character length of a section's element texts. -/
def sectionLen (s : List Element) : Nat :=
  (s.map (fun e => e.text.length)).sum

/-- Modelled from the spec: pass 1 of section 4.2.  Walk sections with
a pending group; absorb the next section when the combined length stays
below `combine_text_under_n_chars`, flushing first whenever absorbing
would exceed `max_characters`. -/
def mergeSmallAux (combine maxc : Nat) (pending : List Element) :
    List (List Element) → List (List Element)
  | [] => [pending]
  | s :: rest =>
    if sectionLen pending + sectionLen s < combine ∧
        sectionLen pending + sectionLen s ≤ maxc then
      mergeSmallAux combine maxc (pending ++ s) rest
    else
      pending :: mergeSmallAux combine maxc s rest

/-- Modelled from the spec: merge small adjacent sections (pass 1 of
section 4.2). -/
def mergeSmall (combine maxc : Nat) : List (List Element) → List (List Element)
  | [] => []
  | s :: rest => mergeSmallAux combine maxc s rest

/-! ## Oversized-element splitting (modelled from the spec, 4.2) -/

/-- Recursion worker of the sliding-window splitter: the fuel bounds
the number of windows and is always taken to be at least the text
length, which suffices because every step drops at least one
character. -/
def slidingSplitFuel (maxc o : Nat) : Nat → List Char → List (List Char)
  | 0, t => [t]
  | fuel + 1, t =>
    if t.length ≤ maxc ∨ maxc ≤ o then [t]
    else t.take maxc :: slidingSplitFuel maxc o fuel (t.drop (maxc - o))

/-- Modelled from the spec: the sliding-window splitter for an element
whose text alone exceeds `max_characters` (section 4.2): window length
`maxc`, advance step `maxc - o`; each window after the first starts with
the trailing `o` characters of the previous window.  The final window
is the remainder once the tail fits in one window. -/
def slidingSplit (t : List Char) (maxc o : Nat) : List (List Char) :=
  slidingSplitFuel maxc o t.length t

/-- The splitter's worker does not depend on the fuel once the fuel
covers the text length. -/
theorem slidingSplitFuel_congr (maxc o : Nat) :
    ∀ (f1 f2 : Nat) (t : List Char), t.length ≤ f1 → t.length ≤ f2 →
      slidingSplitFuel maxc o f1 t = slidingSplitFuel maxc o f2 t := by
  intro f1
  induction f1 with
  | zero =>
    intro f2 t h1 h2
    have ht : t.length = 0 := Nat.le_zero.mp h1
    cases f2 with
    | zero => rfl
    | succ f2 =>
      rw [slidingSplitFuel, slidingSplitFuel, if_pos (Or.inl (by omega))]
  | succ f1 ih =>
    intro f2 t h1 h2
    cases f2 with
    | zero =>
      have ht : t.length = 0 := Nat.le_zero.mp h2
      rw [slidingSplitFuel, slidingSplitFuel, if_pos (Or.inl (by omega))]
    | succ f2 =>
      rw [slidingSplitFuel, slidingSplitFuel]
      by_cases hb : t.length ≤ maxc ∨ maxc ≤ o
      · rw [if_pos hb, if_pos hb]
      · rw [if_neg hb, if_neg hb]
        simp only [not_or, not_le] at hb
        have hd := List.length_drop (maxc - o) t
        rw [ih f2 (t.drop (maxc - o)) (by omega) (by omega)]

/-- Unfolding equation of the sliding-window splitter. -/
theorem slidingSplit_eq (t : List Char) (maxc o : Nat) :
    slidingSplit t maxc o =
      if t.length ≤ maxc ∨ maxc ≤ o then [t]
      else t.take maxc :: slidingSplit (t.drop (maxc - o)) maxc o := by
  unfold slidingSplit
  by_cases hb : t.length ≤ maxc ∨ maxc ≤ o
  · rw [if_pos hb]
    cases hl : t.length with
    | zero => rw [slidingSplitFuel]
    | succ n => rw [slidingSplitFuel, if_pos hb]
  · rw [if_neg hb]
    have hb' := hb
    simp only [not_or, not_le] at hb'
    cases hl : t.length with
    | zero => omega
    | succ n =>
      rw [slidingSplitFuel, if_neg hb]
      congr 1
      have hd := List.length_drop (maxc - o) t
      exact slidingSplitFuel_congr maxc o n (t.drop (maxc - o)).length
        (t.drop (maxc - o)) (by omega) (le_refl _)

/-- Last `n` characters of a text. -/
def lastN (n : Nat) (l : List Char) : List Char :=
  l.drop (l.length - n)

/-! ## Pass 2: bounded emission with overlap (modelled from the spec, 4.2) -/

/-- Accumulator of pass 2: emitted chunks (in order) and the open
buffer. -/
structure ChunkAcc where
  chunks : List (List Char)
  buf : List Char
deriving DecidableEq, Repr

/-- Joining an element text onto a buffer: a single newline separates
texts inside one chunk (section 4.2's whitespace/newline join). -/
def joinText (buf t : List Char) : List Char :=
  if buf.isEmpty then t else buf ++ '\n' :: t

/-- Modelled from the spec: the seed of a fresh chunk buffer.  When
`overlap_all` is set, every new buffer starts with the last `o`
characters of the previous chunk; otherwise it starts empty (section
4.2: ordinary section-boundary splits get no overlap). -/
def seedFor (overlap_all : Bool) (o : Nat) (prev : List Char) : List Char :=
  if overlap_all then lastN o prev else []

/-- Emit the open buffer as a finished chunk when it is nonempty
(empty buffers are dropped, never emitted as empty chunks). -/
def flushBuf (acc : ChunkAcc) : List (List Char) :=
  if acc.buf.isEmpty then acc.chunks else acc.chunks ++ [acc.buf]

/-- Modelled from the spec: processing one element in pass 2 of section
4.2.  An oversized element (text longer than `maxc`) flushes the buffer
and is split by the sliding window, each window its own chunk.
Otherwise the element text is appended to the buffer when the joined
text still fits in `maxc`; if not, the buffer is emitted and a new
buffer is started (seeded by `seedFor`, the seed being dropped when
even the seeded element would overflow). -/
def addElement (maxc o : Nat) (overlap_all : Bool) (acc : ChunkAcc)
    (e : Element) : ChunkAcc :=
  if maxc < e.text.length then
    { chunks := flushBuf acc ++ slidingSplit e.text maxc o
      buf := seedFor overlap_all o
        (((slidingSplit e.text maxc o).getLast?).getD []) }
  else if (joinText acc.buf e.text).length ≤ maxc then
    { chunks := acc.chunks, buf := joinText acc.buf e.text }
  else
    { chunks := acc.chunks ++ [acc.buf]
      buf := if (seedFor overlap_all o acc.buf ++ e.text).length ≤ maxc then
          seedFor overlap_all o acc.buf ++ e.text
        else e.text }

/-- Modelled from the spec: the soft cut of section 4.2.  At a merge
group boundary, a buffer that has reached `new_after_n_chars` is
emitted early rather than waiting for the hard limit. -/
def endGroup (nafter o : Nat) (overlap_all : Bool) (acc : ChunkAcc) : ChunkAcc :=
  if nafter ≤ acc.buf.length ∧ ¬acc.buf.isEmpty then
    { chunks := acc.chunks ++ [acc.buf]
      buf := seedFor overlap_all o acc.buf }
  else acc

/-- Modelled from the spec: pass 2 of section 4.2 over the merged
groups, flushing the final buffer at the end. -/
def passTwo (groups : List (List Element)) (maxc nafter o : Nat)
    (overlap_all : Bool) : List (List Char) :=
  flushBuf (groups.foldl
    (fun acc g => endGroup nafter o overlap_all
      (g.foldl (addElement maxc o overlap_all) acc))
    { chunks := [], buf := [] })

/-- Modelled from the spec: the full `chunk_by_title` pipeline of the
external `unstructured` library (sections 4.1 and 4.2): title
segmentation, then small-section merging, then bounded emission with
overlap.  Chunks are their texts. -/
def chunkByTitleCore (es : List Element) (maxc nafter combine o : Nat)
    (overlap_all : Bool) : List (List Char) :=
  passTwo (mergeSmall combine maxc (segmentByTitle es)) maxc nafter o overlap_all

/-- Embedding of `chunk_elements_by_title` (src/chunking.py lines
96-106): delegates to the library `chunk_by_title` with the
configuration's parameters.  `none` models the `ValueError` the library
raises on an invalid configuration (modelled from the spec, section 7);
on a valid configuration it returns the chunk texts. -/
def chunk_elements_by_title (es : List Element) (cfg : ChunkingConfig) :
    Option (List (List Char)) :=
  if validConfig cfg then
    some (chunkByTitleCore es cfg.max_characters.toNat
      cfg.new_after_n_chars.toNat cfg.combine_text_under_n_chars.toNat
      cfg.overlap.toNat cfg.overlap_all)
  else none

/-! ## JSON element records and `json_to_elements` -/

/-- A parsed element record from an input JSON file, as read by
`json_to_elements` (src/chunking.py lines 68-72): `type` and `text` may
each be absent.  Metadata fields (filename, languages, page number,
coordinates) are carried by the element objects but never influence the
chunk texts, so they are not modelled. -/
structure ElemRecord where
  type : Option String
  text : Option (List Char)
deriving DecidableEq, Repr

/-- Embedding of the `element_type_map` dictionary of
`json_to_elements` (src/chunking.py lines 58-66); `none` is an
unrecognized type string. -/
def elementTypeMap (s : String) : Option ElementKind :=
  if s = "Title" then some .Title
  else if s = "NarrativeText" then some .NarrativeText
  else if s = "UncategorizedText" then some .Text
  else if s = "ListItem" then some .ListItem
  else if s = "Table" then some .Table
  else if s = "CompositeElement" then some .CompositeElement
  else if s = "Text" then some .Text
  else none

/-- Embedding of `json_to_elements` (src/chunking.py lines 53-93): an
absent or unrecognized `type` falls back to `NarrativeText`
(`element_type_map.get(element_type, NarrativeText)`), an absent `text`
falls back to the empty string (`item.get('text', '')`).  The function
has no failure path. -/
def json_to_elements (records : List ElemRecord) : List Element :=
  records.map fun r =>
    { kind := ((r.type.bind elementTypeMap).getD .NarrativeText)
      text := r.text.getD [] }

/-! ## `process_file` and the batch loop -/

/-- Embedding of `process_file` (src/chunking.py lines 157-187) over
the parse result of the input file: `none` is a raised exception while
loading the JSON (caught by the `except` block, logged, `False`
returned); an empty element list is logged as a warning and `False`
returned; otherwise the elements are converted, chunked
(`chunk_elements_by_title`; a library `ValueError` on an invalid
configuration is caught by the same `except` block) and saved, and
`True` is returned.  The result pairs the returned flag with the chunks
written to the output files (`[]` when nothing is saved). -/
def process_file (parsed : Option (List ElemRecord)) (cfg : ChunkingConfig) :
    Bool × List (List Char) :=
  match parsed with
  | none => (false, [])
  | some json_data =>
    if json_data.isEmpty then (false, [])
    else
      match chunk_elements_by_title (json_to_elements json_data) cfg with
      | none => (false, [])
      | some chunks => (true, chunks)

/-- Embedding of the batch loop of `main` (src/chunking.py lines
226-232): every file is processed in order, each file's outcome is
recorded, and a success counter is incremented on `True`; the loop
never stops early.  Returns the per-file outcomes and the final
success count reported by the closing log line. -/
def mainLoop (files : List (Option (List ElemRecord))) (cfg : ChunkingConfig) :
    List Bool × Nat :=
  files.foldl
    (fun acc f =>
      let ok := (process_file f cfg).1
      (acc.1 ++ [ok], if ok then acc.2 + 1 else acc.2))
    ([], 0)

/-! ## `save_chunks` as a trace of file-system writes -/

/-- A primitive file-system operation performed by `save_chunks`:
`openW p` is `open(p, 'w')`, which creates or truncates `p`;
`write p data` appends `data` to the open file `p`. -/
inductive WOp
  | openW (path : List Char)
  | write (path : List Char) (data : List Char)
deriving DecidableEq, Repr

/-- A file system: an association list from paths to contents, newest
entry first. -/
abbrev FS : Type := List (List Char × List Char)

/-- Content of a file, `none` when the file does not exist. -/
def lookupFS : FS → List Char → Option (List Char)
  | [], _ => none
  | (p, v) :: rest, q => if q = p then some v else lookupFS rest q

/-- Apply one write operation to the file system. -/
def runOp (fs : FS) : WOp → FS
  | .openW p => (p, []) :: fs
  | .write p data => (p, ((lookupFS fs p).getD []) ++ data) :: fs

/-- Apply a trace of write operations in order. -/
def runOps (fs : FS) (ops : List WOp) : FS :=
  ops.foldl runOp fs

/-- Serialized JSON content written by `save_chunks` (src/chunking.py
lines 112-139).  The exact JSON syntax is abbreviated to a bracketed
rendering of the chunk texts; what matters for persistence claims is
that it is written in full by a single dump and is never empty (a dump
of a list always writes at least the brackets). -/
def serializeChunks (chunks : List (List Char)) : List Char :=
  '[' :: (chunks.foldr (fun c acc => c ++ ',' :: acc) [']'])

/-- Human-readable rendering written by `save_chunks` (src/chunking.py
lines 142-154), abbreviated to the chunk texts separated by newlines. -/
def renderChunksText (chunks : List (List Char)) (original : List Char) : List Char :=
  original ++ chunks.foldr (fun c acc => '\n' :: c ++ acc) []

/-- Embedding of the write trace of `save_chunks` (src/chunking.py
lines 109-154): the JSON target is opened with `'w'` (truncating) and
the serialized chunks are then written; the text target is opened and
written afterwards.  There is no temporary file and no rename. -/
def saveChunksOps (chunks : List (List Char)) (out original : List Char) :
    List WOp :=
  [ .openW (out ++ ".chunks.json".toList),
    .write (out ++ ".chunks.json".toList) (serializeChunks chunks),
    .openW (out ++ ".chunks.txt".toList),
    .write (out ++ ".chunks.txt".toList) (renderChunksText chunks original) ]

/-! ## The LangChain adapter (src/setupLangchain.py) -/

/-- A metadata value of a persisted chunk record: a string, a number or
a list of strings (the `languages` field). -/
inductive MetaVal
  | s (v : List Char)
  | n (v : Nat)
  | list (v : List (List Char))
deriving DecidableEq, Repr

/-- Metadata dictionaries are association lists from keys to values. -/
abbrev Meta : Type := List (String × MetaVal)

/-- Dictionary lookup (`metadata.get(k)`). -/
def lookupKey : Meta → String → Option MetaVal
  | [], _ => none
  | (k', v) :: rest, k => if k = k' then some v else lookupKey rest k

/-- Dictionary deletion (`del metadata[k]`): removes every binding of
the key. -/
def delKey : Meta → String → Meta
  | [], _ => []
  | (k', v) :: rest, k =>
    if k' = k then delKey rest k else (k', v) :: delKey rest k

/-- Dictionary assignment (`metadata[k] = v`): the new binding shadows
and replaces any old one. -/
def setKey (m : Meta) (k : String) (v : MetaVal) : Meta :=
  (k, v) :: delKey m k

/-- A chunk record as read back from a `.chunks.json` file by
`load_chunked_files`. -/
structure ChunkRecord where
  text : List Char
  metadata : Meta
deriving DecidableEq, Repr

/-- A LangChain `Document`: page content plus metadata. -/
structure DocumentLC where
  page_content : List Char
  metadata : Meta
deriving DecidableEq, Repr

/-- Embedding of Python's `Path.stem` for the file names at hand: the
name up to its last dot (a name with no dot, or only a leading dot, is
its own stem). -/
def pathStem (p : List Char) : List Char :=
  match ((List.range p.length).filter (fun i => p.get? i == some '.')).getLast? with
  | none => p
  | some 0 => p
  | some i => p.take i

/-- Embedding of the per-chunk conversion of `load_chunked_files`
(src/setupLangchain.py lines 15-24): `source` is set to
`metadata.get("original_filename", json_file.stem)`, the `languages`
key is then deleted when present, and the document's page content is
the chunk's `text` field verbatim. -/
def convertChunk (fileStem : List Char) (c : ChunkRecord) : DocumentLC :=
  let m1 := setKey c.metadata "source"
    ((lookupKey c.metadata "original_filename").getD (.s fileStem))
  { page_content := c.text, metadata := delKey m1 "languages" }

/-- Embedding of `load_chunked_files` (src/setupLangchain.py lines
6-26) over the directory contents: each input pairs a chunks-file name
with its parsed records; every record of every file becomes one
document. -/
def load_chunked_files (files : List (List Char × List ChunkRecord)) :
    List DocumentLC :=
  files.flatMap fun f => f.2.map (convertChunk (pathStem f.1))

/-! ## Source previews (src/query.py and src/setupRAG.py, `ask_question`) -/

/-- The three-dot ellipsis appended to truncated previews. -/
def dots3 : List Char := ['.', '.', '.']

/-- Embedding of the preview expression of `ask_question`
(src/query.py line 119 and src/setupRAG.py line 129):
`doc.page_content[:100] + "..." if len(doc.page_content) > 100 else
doc.page_content`. -/
def previewOf (text : List Char) : List Char :=
  if 100 < text.length then text.take 100 ++ dots3 else text

/-- Embedding of `doc.metadata.get('source', 'Unknown')` in
`ask_question`. -/
def getSource (d : DocumentLC) : MetaVal :=
  (lookupKey d.metadata "source").getD (.s "Unknown".toList)

/-- Embedding of the sources loop of `ask_question` (src/query.py lines
117-120, src/setupRAG.py lines 127-130): one `(source, preview)` entry
per retrieved document, in order. -/
def sourceEntries (docs : List DocumentLC) : List (MetaVal × List Char) :=
  docs.map fun d => (getSource d, previewOf d.page_content)

/-! ## Lemmas about the sliding-window splitter -/

/-- The splitter never returns an empty list of windows. -/
theorem slidingSplit_ne_nil (t : List Char) (maxc o : Nat) :
    slidingSplit t maxc o ≠ [] := by
  rw [slidingSplit_eq]
  split <;> simp

/-- Every window produced by the splitter has length at most `maxc`
(for a configuration with `o < maxc`). -/
theorem slidingSplit_mem_length (maxc o : Nat) (ho : o < maxc)
    (t : List Char) : ∀ c ∈ slidingSplit t maxc o, c.length ≤ maxc := by
  rw [slidingSplit_eq]
  by_cases hb : t.length ≤ maxc ∨ maxc ≤ o
  · rw [if_pos hb]
    rcases hb with hb | hb
    · simpa using hb
    · omega
  · rw [if_neg hb]
    intro c hc
    rcases List.mem_cons.mp hc with rfl | hc
    · simp [List.length_take]
    · exact slidingSplit_mem_length maxc o ho (t.drop (maxc - o)) c hc
termination_by t.length
decreasing_by
  simp only [not_or, not_le] at hb
  have := List.length_drop (maxc - o) t
  omega

/-- The first `o` characters of the first window are the first `o`
characters of the text being split. -/
theorem slidingSplit_headD_take (t : List Char) (maxc o : Nat)
    (ho : o ≤ maxc) :
    ((slidingSplit t maxc o).getD 0 []).take o = t.take o := by
  rw [slidingSplit_eq]
  by_cases hb : t.length ≤ maxc ∨ maxc ≤ o
  · rw [if_pos hb]; rfl
  · rw [if_neg hb]
    simp only [List.getD_cons_zero, List.take_take]
    rw [min_eq_left ho]

/-- Overlap bookkeeping of the splitter: the trailing `o` characters of
any window equal the leading `o` characters of the next window. -/
theorem slidingSplit_overlap_aux (maxc o : Nat) (ho : o < maxc) :
    ∀ (i : Nat) (t : List Char), i + 1 < (slidingSplit t maxc o).length →
      lastN o ((slidingSplit t maxc o).getD i []) =
        ((slidingSplit t maxc o).getD (i + 1) []).take o := by
  intro i
  induction i with
  | zero =>
    intro t hi
    rw [slidingSplit_eq] at hi ⊢
    by_cases hb : t.length ≤ maxc ∨ maxc ≤ o
    · rw [if_pos hb] at hi
      simp at hi
    · rw [if_neg hb] at hi ⊢
      simp only [not_or, not_le] at hb
      simp only [List.getD_cons_zero, List.getD_cons_succ]
      rw [slidingSplit_headD_take _ _ _ (le_of_lt ho)]
      unfold lastN
      rw [List.length_take, min_eq_left (le_of_lt hb.1)]
      rw [List.drop_take]
      congr 1
      omega
  | succ i ih =>
    intro t hi
    rw [slidingSplit_eq] at hi ⊢
    by_cases hb : t.length ≤ maxc ∨ maxc ≤ o
    · rw [if_pos hb] at hi
      simp at hi
    · rw [if_neg hb] at hi ⊢
      simp only [List.getD_cons_succ]
      apply ih
      simpa using hi

/-- C3: for every element whose single text exceeds `max_characters`,
and for any two consecutive chunks produced by splitting it, the
trailing `overlap` characters of the earlier chunk's text equal the
leading `overlap` characters of the later chunk's text. -/
theorem sliding_overlap_correct (t : List Char) (maxc o : Nat)
    (ho : o < maxc) (_ht : maxc < t.length) (i : Nat)
    (hi : i + 1 < (slidingSplit t maxc o).length) :
    lastN o ((slidingSplit t maxc o).getD i []) =
      ((slidingSplit t maxc o).getD (i + 1) []).take o :=
  slidingSplit_overlap_aux maxc o ho i t hi

/-- Witness for C3 at the text `"abcdefghijkl"`, window 5, overlap 2:
the splitter yields `["abcde", "defgh", "ghijk", "jkl"]` and the first
two windows share the overlap `"de"`. -/
theorem sliding_overlap_correct_witness :
    2 < 5 ∧ 5 < "abcdefghijkl".toList.length ∧
      0 + 1 < (slidingSplit "abcdefghijkl".toList 5 2).length ∧
      lastN 2 ((slidingSplit "abcdefghijkl".toList 5 2).getD 0 []) =
        ((slidingSplit "abcdefghijkl".toList 5 2).getD (0 + 1) []).take 2 :=
  ⟨by decide, by decide, by decide,
    sliding_overlap_correct "abcdefghijkl".toList 5 2 (by decide) (by decide)
      0 (by decide)⟩

/-! ## The size-bound invariant of pass 2 -/

/-- Invariant of the pass-2 accumulator: every emitted chunk and the
open buffer are within the size bound. -/
def ChunkInv (maxc : Nat) (acc : ChunkAcc) : Prop :=
  (∀ c ∈ acc.chunks, c.length ≤ maxc) ∧ acc.buf.length ≤ maxc

/-- Last `n` characters of a text number at most `n`. -/
theorem lastN_length_le (n : Nat) (l : List Char) : (lastN n l).length ≤ n := by
  unfold lastN
  rw [List.length_drop]
  omega

/-- A chunk-buffer seed never exceeds the overlap length. -/
theorem seedFor_length_le (b : Bool) (o : Nat) (p : List Char) :
    (seedFor b o p).length ≤ o := by
  unfold seedFor
  split
  · exact lastN_length_le o p
  · simp

/-- Flushing preserves the chunk size bound. -/
theorem flushBuf_bound {maxc : Nat} {acc : ChunkAcc} (h : ChunkInv maxc acc) :
    ∀ c ∈ flushBuf acc, c.length ≤ maxc := by
  intro c hc
  unfold flushBuf at hc
  split at hc
  · exact h.1 c hc
  · rcases List.mem_append.mp hc with hc | hc
    · exact h.1 c hc
    · rw [List.mem_singleton.mp hc]
      exact h.2

/-- One step of pass 2 preserves the size-bound invariant (for a
configuration with `o < maxc`). -/
theorem addElement_inv {maxc o : Nat} {b : Bool} {acc : ChunkAcc}
    (ho : o < maxc) (h : ChunkInv maxc acc) (e : Element) :
    ChunkInv maxc (addElement maxc o b acc e) := by
  unfold addElement
  split
  · refine ⟨?_, le_trans (seedFor_length_le _ _ _) (le_of_lt ho)⟩
    intro c hc
    rcases List.mem_append.mp hc with hc | hc
    · exact flushBuf_bound h c hc
    · exact slidingSplit_mem_length maxc o ho _ c hc
  · split
    · exact ⟨h.1, by assumption⟩
    · refine ⟨?_, ?_⟩
      · intro c hc
        rcases List.mem_append.mp hc with hc | hc
        · exact h.1 c hc
        · rw [List.mem_singleton.mp hc]
          exact h.2
      · split
        · assumption
        · show e.text.length ≤ maxc
          omega

/-- The soft cut at a group boundary preserves the size-bound
invariant. -/
theorem endGroup_inv {nafter maxc o : Nat} {b : Bool} {acc : ChunkAcc}
    (ho : o < maxc) (h : ChunkInv maxc acc) :
    ChunkInv maxc (endGroup nafter o b acc) := by
  unfold endGroup
  split
  · refine ⟨?_, le_trans (seedFor_length_le _ _ _) (le_of_lt ho)⟩
    intro c hc
    rcases List.mem_append.mp hc with hc | hc
    · exact h.1 c hc
    · rw [List.mem_singleton.mp hc]
      exact h.2
  · exact h

/-- Folding pass 2 over one group's elements preserves the invariant. -/
theorem foldl_addElement_inv {maxc o : Nat} {b : Bool} (ho : o < maxc) :
    ∀ (g : List Element) (acc : ChunkAcc), ChunkInv maxc acc →
      ChunkInv maxc (g.foldl (addElement maxc o b) acc) := by
  intro g
  induction g with
  | nil => intro acc h; exact h
  | cons e rest ih =>
    intro acc h
    exact ih _ (addElement_inv ho h e)

/-- Every chunk emitted by pass 2 respects the size bound. -/
theorem passTwo_bound {maxc nafter o : Nat} {b : Bool} (ho : o < maxc)
    (groups : List (List Element)) :
    ∀ c ∈ passTwo groups maxc nafter o b, c.length ≤ maxc := by
  unfold passTwo
  apply flushBuf_bound
  generalize hstart : ({ chunks := [], buf := [] } : ChunkAcc) = start
  have hinv : ChunkInv maxc start := by
    rw [← hstart]; exact ⟨by simp, by simp⟩
  clear hstart
  induction groups generalizing start with
  | nil => exact hinv
  | cons g rest ih =>
    rw [List.foldl_cons]
    exact ih _ (endGroup_inv ho (foldl_addElement_inv ho g start hinv))

/-- C1: for every configuration and every element list, every chunk
returned by `chunk_elements_by_title` has text length at most
`config.max_characters`. -/
theorem chunk_size_bound (es : List Element) (cfg : ChunkingConfig)
    (cs : List (List Char)) (h : chunk_elements_by_title es cfg = some cs) :
    ∀ c ∈ cs, (c.length : Int) ≤ cfg.max_characters := by
  unfold chunk_elements_by_title at h
  split at h
  case isFalse => exact absurd h (by simp)
  case isTrue hv =>
    have hcs : cs = chunkByTitleCore es cfg.max_characters.toNat
        cfg.new_after_n_chars.toNat cfg.combine_text_under_n_chars.toNat
        cfg.overlap.toNat cfg.overlap_all := by
      exact (Option.some.injEq _ _ ▸ h).symm
    simp only [validConfig, Bool.and_eq_true, decide_eq_true_eq] at hv
    have ho : cfg.overlap.toNat < cfg.max_characters.toNat := by omega
    intro c hc
    have := passTwo_bound ho
      (mergeSmall cfg.combine_text_under_n_chars.toNat
        cfg.max_characters.toNat (segmentByTitle es)) c (by
          rw [hcs] at hc
          exact hc)
    omega

/-- Concrete elements for the C1 witness: a short title followed by an
oversized narrative. -/
def exampleElems : List Element :=
  [⟨.Title, "Hi".toList⟩, ⟨.NarrativeText, "abcdefghijklmnopqrstuvwxyz".toList⟩]

/-- Concrete configuration for the C1 witness. -/
def exampleConfig : ChunkingConfig := ChunkingConfig.init 10 8 5 3 false true

/-- Concrete chunk output for the C1 witness. -/
def exampleChunks : List (List Char) :=
  ["Hi".toList, "abcdefghij".toList, "hijklmnopq".toList,
   "opqrstuvwx".toList, "vwxyz".toList]

/-- Witness for C1: on the example elements and the 10/8/5/3
configuration, the pipeline produces five chunks and each is at most 10
characters long. -/
theorem chunk_size_bound_witness :
    chunk_elements_by_title exampleElems exampleConfig = some exampleChunks ∧
      ∀ c ∈ exampleChunks, (c.length : Int) ≤ exampleConfig.max_characters :=
  ⟨by decide, fun c hc =>
    chunk_size_bound exampleElems exampleConfig exampleChunks (by decide) c hc⟩

/-- C2 counterexample: constructing a configuration with `overlap`
(100) greater than `max_characters` (50) succeeds — `__init__` returns
the record with the invalid values stored, where the claim requires
construction to fail. -/
theorem config_init_unvalidated_cex :
    ChunkingConfig.init 50 800 200 100 false true =
      { max_characters := 50, new_after_n_chars := 800,
        combine_text_under_n_chars := 200, overlap := 100,
        overlap_all := false, multipage_sections := true } ∧
    (50 : Int) ≤ 100 :=
  ⟨rfl, by decide⟩

/-- C2 (amended): `ChunkingConfig` construction never fails; every
parameter combination, the invalid ones included, is stored verbatim
without validation. -/
theorem config_init_total (a b c d : Int) (e f : Bool) :
    ChunkingConfig.init a b c d e f =
      { max_characters := a, new_after_n_chars := b,
        combine_text_under_n_chars := c, overlap := d,
        overlap_all := e, multipage_sections := f } :=
  rfl

/-- C4 counterexample: on a file whose element data is empty,
`process_file` returns `False` — the failure indicator — where the
claim requires it not to report failure. -/
theorem process_empty_failure_cex :
    process_file (some []) (ChunkingConfig.init 1000 800 200 50 false true) =
      (false, []) :=
  rfl

/-- C4 (amended): a file whose partitioned element data is empty
produces zero chunks, but `process_file` marks it as a failure
(returns `False` after a warning), not as processed-but-empty. -/
theorem process_empty_marks_failure (cfg : ChunkingConfig) :
    process_file (some []) cfg = (false, []) :=
  rfl

/-- C6 counterexample: a document whose single element record carries
the unrecognized type `"Bogus"` is not skipped — it is coerced to
`NarrativeText`, processed successfully and produces a chunk, where the
claim requires the document to be skipped with no chunks produced. -/
theorem malformed_not_skipped_cex :
    process_file (some [⟨some "Bogus", some "hello world".toList⟩])
        (ChunkingConfig.init 20 15 5 3 false true) =
      (true, ["hello world".toList]) := by
  decide

/-- C6 (amended): only a JSON-level load failure takes the
logged-skip-continue path; a malformed element record is coerced
instead of skipped — an unrecognized or absent type becomes
`NarrativeText` and a missing text becomes the empty string — and the
document is processed normally. -/
theorem malformed_coerced (cfg : ChunkingConfig) (t : Option String)
    (txt : Option (List Char)) (h : t.bind elementTypeMap = none) :
    process_file none cfg = (false, []) ∧
    json_to_elements [⟨t, txt⟩] =
      [{ kind := .NarrativeText, text := txt.getD [] }] := by
  refine ⟨rfl, ?_⟩
  simp only [json_to_elements, List.map_cons, List.map_nil, h]
  rfl

/-- Witness for C6 (amended) at the unrecognized type `"Bogus"`. -/
theorem malformed_coerced_witness :
    process_file none (ChunkingConfig.init 20 15 5 3 false true) = (false, []) ∧
    json_to_elements [⟨some "Bogus", some ['h', 'i']⟩] =
      [{ kind := .NarrativeText, text := ['h', 'i'] }] :=
  malformed_coerced (ChunkingConfig.init 20 15 5 3 false true)
    (some "Bogus") (some ['h', 'i']) (by decide)

/-- C7: during batch chunking no failure aborts the run — the loop
records one outcome per input file, in order (so every file is
attempted), and the final reported count equals the number of
successful files. -/
theorem batch_processes_every_file (files : List (Option (List ElemRecord)))
    (cfg : ChunkingConfig) :
    (mainLoop files cfg).1 = files.map (fun f => (process_file f cfg).1) ∧
    (mainLoop files cfg).1.length = files.length ∧
    (mainLoop files cfg).2 =
      (files.map (fun f => (process_file f cfg).1)).count true := by
  have key : ∀ (fs : List (Option (List ElemRecord))) (outs : List Bool) (n : Nat),
      fs.foldl
        (fun acc f =>
          ((acc.1 ++ [(process_file f cfg).1] : List Bool),
            if (process_file f cfg).1 then acc.2 + 1 else acc.2))
        (outs, n) =
      (outs ++ fs.map (fun f => (process_file f cfg).1),
        n + (fs.map (fun f => (process_file f cfg).1)).count true) := by
    intro fs
    induction fs with
    | nil => intro outs n; simp
    | cons f rest ih =>
      intro outs n
      rw [List.foldl_cons, ih]
      simp only [List.map_cons, List.count_cons, Prod.mk.injEq]
      refine ⟨by simp, ?_⟩
      cases hf : (process_file f cfg).1 <;> simp [hf] <;> omega
  have h := key files [] 0
  unfold mainLoop
  rw [h]
  refine ⟨by simp, by simp, by simp⟩

/-! ## Persistence: `save_chunks` is not atomic -/

/-- The serialized JSON dump is never empty. -/
theorem serializeChunks_ne_nil (chunks : List (List Char)) :
    serializeChunks chunks ≠ [] := by
  simp [serializeChunks]

/-- The JSON and text targets of one output stem are distinct paths. -/
theorem save_paths_ne (out : List Char) :
    out ++ ".chunks.json".toList ≠ out ++ ".chunks.txt".toList := by
  intro h
  have h2 := List.append_cancel_left h
  exact absurd h2 (by decide)

/-- C5 counterexample: running only the first operation of the
`save_chunks` trace (the truncating open of the JSON target) leaves the
target file visible and empty — a partial state differing from the
completed output, where the claim requires that no partial output file
ever be visible. -/
theorem save_not_atomic_cex :
    lookupFS (runOps [] ((saveChunksOps [['a', 'b']] "doc".toList
        "o".toList).take 1)) ("doc".toList ++ ".chunks.json".toList) =
      some [] ∧
    lookupFS (runOps [] (saveChunksOps [['a', 'b']] "doc".toList "o".toList))
        ("doc".toList ++ ".chunks.json".toList) =
      some (serializeChunks [['a', 'b']]) ∧
    some ([] : List Char) ≠ some (serializeChunks [['a', 'b']]) := by
  refine ⟨by decide, by decide, by decide⟩

/-- C5 (amended): `save_chunks` writes in place — each target is opened
with truncation and then written, with no temporary file or rename — so
a failure between the open and the completed write leaves a visible
partial (truncated) file; only a run of the whole trace stores the full
serialized chunk list. -/
theorem save_chunks_in_place (chunks : List (List Char)) (out orig : List Char) :
    lookupFS (runOps [] (saveChunksOps chunks out orig))
        (out ++ ".chunks.json".toList) = some (serializeChunks chunks) ∧
    lookupFS (runOps [] ((saveChunksOps chunks out orig).take 1))
        (out ++ ".chunks.json".toList) = some [] ∧
    serializeChunks chunks ≠ [] := by
  have hne := save_paths_ne out
  refine ⟨?_, ?_, serializeChunks_ne_nil chunks⟩
  · have hrun : runOps [] (saveChunksOps chunks out orig) =
        [(out ++ ".chunks.txt".toList, renderChunksText chunks orig),
         (out ++ ".chunks.txt".toList, []),
         (out ++ ".chunks.json".toList, serializeChunks chunks),
         (out ++ ".chunks.json".toList, [])] := by
      simp [runOps, saveChunksOps, runOp, lookupFS]
    rw [hrun]
    rw [lookupFS, if_neg hne, lookupFS, if_neg hne, lookupFS, if_pos rfl]
  · simp [runOps, saveChunksOps, runOp, lookupFS]

/-! ## Dictionary lemmas for the adapter -/

/-- Looking up a key after deleting it finds nothing. -/
theorem lookupKey_delKey_self (m : Meta) (k : String) :
    lookupKey (delKey m k) k = none := by
  induction m with
  | nil => rfl
  | cons e rest ih =>
    obtain ⟨k1, v⟩ := e
    rw [delKey]
    by_cases he : k1 = k
    · rw [if_pos he]
      exact ih
    · rw [if_neg he, lookupKey, if_neg (fun h => he h.symm)]
      exact ih

/-- Deleting one key leaves every other key's binding unchanged. -/
theorem lookupKey_delKey_ne (m : Meta) (k k' : String) (h : k ≠ k') :
    lookupKey (delKey m k') k = lookupKey m k := by
  induction m with
  | nil => rfl
  | cons e rest ih =>
    obtain ⟨k1, v⟩ := e
    rw [delKey]
    by_cases he : k1 = k'
    · rw [if_pos he, lookupKey, if_neg (fun hh => h (hh.trans he))]
      exact ih
    · rw [if_neg he, lookupKey, lookupKey]
      by_cases hk : k = k1
      · rw [if_pos hk, if_pos hk]
      · rw [if_neg hk, if_neg hk]
        exact ih

/-- Assigning a key makes its lookup return the assigned value. -/
theorem lookupKey_setKey_self (m : Meta) (k : String) (v : MetaVal) :
    lookupKey (setKey m k v) k = some v := by
  rw [setKey, lookupKey, if_pos rfl]

/-- Assigning one key leaves every other key's binding unchanged. -/
theorem lookupKey_setKey_ne (m : Meta) (k k' : String) (v : MetaVal)
    (h : k ≠ k') : lookupKey (setKey m k' v) k = lookupKey m k := by
  rw [setKey, lookupKey, if_neg h]
  exact lookupKey_delKey_ne m k k' h

/-- C8: the adapter copies each chunk's text verbatim into the document
content, drops the list-valued `languages` metadata key entirely, sets
`source` to the recorded original filename when one is present, and
copies every other metadata key unchanged (no coercion of any value). -/
theorem adapter_conversion (stem : List Char) (c : ChunkRecord) :
    (convertChunk stem c).page_content = c.text ∧
    lookupKey (convertChunk stem c).metadata "languages" = none ∧
    (∀ v, lookupKey c.metadata "original_filename" = some v →
      lookupKey (convertChunk stem c).metadata "source" = some v) ∧
    (∀ k, k ≠ "source" → k ≠ "languages" →
      lookupKey (convertChunk stem c).metadata k = lookupKey c.metadata k) := by
  refine ⟨rfl, lookupKey_delKey_self _ _, ?_, ?_⟩
  · intro v hv
    show lookupKey (delKey (setKey c.metadata "source"
      ((lookupKey c.metadata "original_filename").getD (.s stem)))
      "languages") "source" = some v
    rw [lookupKey_delKey_ne _ _ _ (by decide), lookupKey_setKey_self, hv]
    rfl
  · intro k h1 h2
    show lookupKey (delKey (setKey c.metadata "source"
      ((lookupKey c.metadata "original_filename").getD (.s stem)))
      "languages") k = lookupKey c.metadata k
    rw [lookupKey_delKey_ne _ _ _ h2, lookupKey_setKey_ne _ _ _ _ h1]

/-- Concrete chunk record for the C8 witness. -/
def exampleRecord : ChunkRecord :=
  { text := "txt".toList
    metadata := [("original_filename", .s "doc.pdf".toList),
                 ("languages", .list ["en".toList]),
                 ("chunk_index", .n 1)] }

/-- Witness for C8 on a record carrying an original filename, a
`languages` list and one further key. -/
theorem adapter_conversion_witness :
    (convertChunk "stem".toList exampleRecord).page_content =
      exampleRecord.text ∧
    lookupKey (convertChunk "stem".toList exampleRecord).metadata
      "languages" = none ∧
    lookupKey (convertChunk "stem".toList exampleRecord).metadata
      "source" = some (.s "doc.pdf".toList) ∧
    lookupKey (convertChunk "stem".toList exampleRecord).metadata
      "chunk_index" = lookupKey exampleRecord.metadata "chunk_index" :=
  ⟨(adapter_conversion "stem".toList exampleRecord).1,
    (adapter_conversion "stem".toList exampleRecord).2.1,
    (adapter_conversion "stem".toList exampleRecord).2.2.1 _ (by decide),
    (adapter_conversion "stem".toList exampleRecord).2.2.2
      "chunk_index" (by decide) (by decide)⟩

/-- C9: the preview of a retrieved document equals the first 100
characters of its text with `"..."` appended exactly when the text is
longer than 100 characters; shorter texts are shown whole, and the
sources list has one such entry per retrieved document. -/
theorem preview_correct (t : List Char) :
    (100 < t.length → previewOf t = t.take 100 ++ dots3) ∧
    (t.length ≤ 100 → previewOf t = t) ∧
    ((previewOf t = t.take 100 ++ dots3) ↔ 100 < t.length) ∧
    (∀ docs : List DocumentLC, ∀ d ∈ docs,
      (getSource d, previewOf d.page_content) ∈ sourceEntries docs) := by
  refine ⟨?_, ?_, ?_, ?_⟩
  · intro h
    rw [previewOf, if_pos h]
  · intro h
    rw [previewOf, if_neg (by omega)]
  · constructor
    · intro h
      by_contra hlen
      rw [previewOf, if_neg hlen] at h
      have hlen' : t.length ≤ 100 := by omega
      have h2 := congrArg List.length h
      rw [List.length_append, List.length_take] at h2
      simp only [dots3, List.length_cons, List.length_nil] at h2
      omega
    · intro h
      rw [previewOf, if_pos h]
  · intro docs d hd
    exact List.mem_map_of_mem _ hd

/-- Witness for C9: a 101-character text is truncated with an appended
ellipsis; a 2-character text is shown whole. -/
theorem preview_correct_witness :
    previewOf (List.replicate 101 'x') =
      (List.replicate 101 'x').take 100 ++ dots3 ∧
    previewOf ['h', 'i'] = ['h', 'i'] :=
  ⟨(preview_correct (List.replicate 101 'x')).1 (by decide),
    (preview_correct ['h', 'i']).2.1 (by decide)⟩

/-- C10: when a chunk record's metadata lacks `original_filename`, the
document's `source` falls back to the stem of the containing chunks
file — for a file named `doc.pdf.chunks.json` that stem is
`doc.pdf.chunks`, not the original document name — and when
`original_filename` is present, `source` equals it exactly. -/
theorem source_fallback (fname : List Char) (c : ChunkRecord) :
    (lookupKey c.metadata "original_filename" = none →
      lookupKey (convertChunk (pathStem fname) c).metadata "source" =
        some (.s (pathStem fname))) ∧
    (∀ v, lookupKey c.metadata "original_filename" = some v →
      lookupKey (convertChunk (pathStem fname) c).metadata "source" = some v) ∧
    pathStem "doc.pdf.chunks.json".toList = "doc.pdf.chunks".toList := by
  refine ⟨?_, ?_, by decide⟩
  · intro hv
    show lookupKey (delKey (setKey c.metadata "source"
      ((lookupKey c.metadata "original_filename").getD (.s (pathStem fname))))
      "languages") "source" = some (.s (pathStem fname))
    rw [lookupKey_delKey_ne _ _ _ (by decide), lookupKey_setKey_self, hv]
    rfl
  · intro v hv
    show lookupKey (delKey (setKey c.metadata "source"
      ((lookupKey c.metadata "original_filename").getD (.s (pathStem fname))))
      "languages") "source" = some v
    rw [lookupKey_delKey_ne _ _ _ (by decide), lookupKey_setKey_self, hv]
    rfl

/-- Concrete chunk record without `original_filename` for the C10
witness. -/
def exampleRecordNoOrig : ChunkRecord :=
  { text := ['t'], metadata := [("chunk_index", .n 1)] }

/-- Witness for C10: on a record with no `original_filename` loaded
from `doc.pdf.chunks.json`, the `source` becomes the stem
`doc.pdf.chunks`. -/
theorem source_fallback_witness :
    lookupKey (convertChunk (pathStem "doc.pdf.chunks.json".toList)
        exampleRecordNoOrig).metadata "source" =
      some (.s (pathStem "doc.pdf.chunks.json".toList)) ∧
    pathStem "doc.pdf.chunks.json".toList = "doc.pdf.chunks".toList :=
  ⟨(source_fallback "doc.pdf.chunks.json".toList exampleRecordNoOrig).1
      (by decide),
    (source_fallback "doc.pdf.chunks.json".toList exampleRecordNoOrig).2.2⟩
